import Mathlib

/-
Verification of the NachOS kernel core (huiyuiui/NachOS) against its
natural-language specification.

Shallow embedding of:
  * userprog/addrspace.cc  (Hw2 / MP2): AddrSpace::Translate, AddrSpace::Load
  * threads/scheduler.cc   (Hw3 / MP3): Scheduler::CheckPreempt, Aging,
    ScheduleNext, PutToReady
  * filesys/filehdr.cc     (Hw4 / MP4): FileHeader::Allocate, Deallocate,
    ByteToSector, CountHeader
  * filesys/directory.cc, filesys/filesys.cc (Hw4 / MP4): Directory
    operations, FileSystem::Create, Remove, RemoveDir

Machine integers are modelled as Nat (C++ unsigned) or Int (C++ int); no
overflow occurs in the ranges the verified operations are used at.
C++ integer division truncates toward zero, which is Int.tdiv in Lean.
-/

namespace NachOS

/-! ## Address space: constants (machine.h is an external collaborator;
standard NachOS values, the theorems only use their positivity). -/

def PageSize : Nat := 128

def NumPhysPages : Nat := 128

def MemorySize : Nat := NumPhysPages * PageSize

/-- The exception taxonomy of the spec (machine.h). -/
inductive ExceptionType where
  | NoException
  | AddressErrorException
  | ReadOnlyException
  | BusErrorException
  | MemoryLimitException
  | PageFaultException
deriving Repr, DecidableEq

/-- machine/translate.h TranslationEntry: one page-table entry. -/
structure TranslationEntry where
  virtualPage : Nat
  physicalPage : Nat
  valid : Bool
  use : Bool
  dirty : Bool
  readOnly : Bool
deriving Repr, DecidableEq

instance : Inhabited TranslationEntry := ⟨⟨0, 0, false, false, false, false⟩⟩

/-- AddrSpace::Translate (addrspace.cc lines 415-458).  The page table is
the AddrSpace's pageTable array (numPages = its length); the returned
triple is (exception, written *paddr* if any, page table after the call).
On a failure path the C++ code returns before any store, so the table is
returned unchanged and *paddr* is never written (modelled as none). -/
def translate (pageTable : List TranslationEntry) (vaddr : Nat)
    (isReadWrite : Bool) : ExceptionType × Option Nat × List TranslationEntry :=
  let vpn := vaddr / PageSize
  let offset := vaddr % PageSize
  if vpn ≥ pageTable.length then
    (.AddressErrorException, none, pageTable)
  else
    let pte := pageTable.getD vpn default
    if isReadWrite && pte.readOnly then
      (.ReadOnlyException, none, pageTable)
    else
      let pfn := pte.physicalPage
      if pfn ≥ NumPhysPages then
        (.BusErrorException, none, pageTable)
      else
        let pte' := { pte with use := true,
                               dirty := if isReadWrite then true else pte.dirty }
        (.NoException, some (pfn * PageSize + offset), pageTable.set vpn pte')

/-! ## AddrSpace::Load: the frame-allocation part (addrspace.cc 139-175).
kernel->FrameTable is an array of NumPhysPages flags, value 1 (true)
meaning the frame is free; kernel->FreeFrame counts the free frames. -/

/-- The page-table/frame initialization loop of Load: scan the frame table
from index 0, claiming each free frame until `need` pages are mapped.
Returns the new frame table along with the list of claimed physical
frame numbers in claim order. -/
def allocFramesLoop : List Bool → Nat → Nat → List Bool × List Nat
  | [], _, _ => ([], [])
  | f :: fs, i, need =>
    if need = 0 then (f :: fs, [])
    else if f then
      let r := allocFramesLoop fs (i + 1) (need - 1)
      (false :: r.1, i :: r.2)
    else
      let r := allocFramesLoop fs (i + 1) need
      (f :: r.1, r.2)

/-- Page-table entries built by Load for the claimed frames:
virtualPage = idx, physicalPage = claimed frame, valid, flags cleared. -/
def mkPageTable (claimed : List Nat) : List TranslationEntry :=
  claimed.enum.map (fun p => ⟨p.1, p.2, true, false, false, false⟩)

/-- Number of free frames recorded in the frame table. -/
def countFree (ft : List Bool) : Nat := (ft.filter id).length

/-- Modelled from the spec: the memory-limit path of AddrSpace::Load.
The sources call ExceptionHandler(MemoryLimitException), which lives in
userprog/exception.cc and is not among the given source files; per the
spec, Load then "raises MemoryLimitException and returns false — no
partial allocation is retained".  Otherwise this is the allocation phase
of Load (addrspace.cc 139-175) for an executable needing `numPages`
pages: the result is (raised exception, return value, frame table,
FreeFrame counter, page table). -/
def load (numPages : Nat) (frameTable : List Bool) (freeFrame : Nat) :
    Option ExceptionType × Bool × List Bool × Nat × List TranslationEntry :=
  if numPages > freeFrame then
    (some .MemoryLimitException, false, frameTable, freeFrame, [])
  else
    let r := allocFramesLoop frameTable 0 numPages
    (none, true, r.1, freeFrame - r.2.length, mkPageTable r.2)

/-! ## Multi-level feedback scheduler (threads/scheduler.cc). -/

inductive ThreadStatus where
  | JUST_CREATED
  | READY
  | RUNNING
  | BLOCKED
  | ZOMBIE
deriving Repr, DecidableEq

/-- Per-thread scheduling metadata (thread.h is not among the given source
files; fields are modelled from the spec §3/§4.3).  The burst fields are
used by these claims only through order comparisons and assignments, so
they are carried as integers. -/
structure Thread where
  priority : Int
  remain_burst : Int
  approx_burst : Int
  true_burst : Int
  insert_ready_time : Int
  total_ready_time : Int
  status : ThreadStatus
deriving Repr, DecidableEq

instance : Inhabited Thread := ⟨⟨0, 0, 0, 0, 0, 0, .JUST_CREATED⟩⟩

/-- Modelled from the spec: Thread::WhichQueue (thread.cc is not among the
given source files); priority ≥ 100 → L1, 50 ≤ priority < 100 → L2,
priority < 50 → L3 (spec §3). -/
def whichQueue (t : Thread) : Nat :=
  if t.priority ≥ 100 then 1 else if t.priority ≥ 50 then 2 else 3

/-- comp_L1 (scheduler.cc 32-43): when both remaining bursts are zero,
order by descending priority; otherwise by ascending remaining burst. -/
def compL1 (x y : Thread) : Int :=
  if x.remain_burst = 0 ∧ y.remain_burst = 0 then
    if x.priority > y.priority then -1
    else if x.priority = y.priority then 0
    else 1
  else
    if x.remain_burst > y.remain_burst then 1
    else if x.remain_burst = y.remain_burst then 0
    else -1

/-- comp_L2 (scheduler.cc 45-50): descending priority. -/
def compL2 (x y : Thread) : Int :=
  if x.priority > y.priority then -1
  else if x.priority = y.priority then 0
  else 1

/-- Modelled from the spec: SortedList::Insert (list.cc is not among the
given source files); the item is placed before the first element it
compares strictly below, so ties keep insertion order (spec §5:
"ties broken by insertion order"). -/
def sortedInsert (comp : Thread → Thread → Int) (t : Thread) :
    List Thread → List Thread
  | [] => [t]
  | x :: xs =>
    if comp t x < 0 then t :: x :: xs else x :: sortedInsert comp t xs

/-- The three ready queues (L1, L2 sorted; L3 FIFO). -/
structure SchedState where
  L1 : List Thread
  L2 : List Thread
  L3 : List Thread
deriving Repr, DecidableEq

/-- Scheduler::PutToReady (scheduler.cc 298-323).  `now` is
kernel->stats->totalTicks; Thread::StartReady (thread.cc, not among the
given sources) is modelled from the spec as recording
insert_ready_time = now. -/
def putToReady (now : Int) (t : Thread) (s : SchedState) : SchedState :=
  let t1 := if t.status = .BLOCKED then
              { t with remain_burst := t.approx_burst, true_burst := 0 }
            else t
  let t2 := { t1 with status := .READY, insert_ready_time := now }
  if whichQueue t2 = 1 then { s with L1 := sortedInsert compL1 t2 s.L1 }
  else if whichQueue t2 = 2 then { s with L2 := sortedInsert compL2 t2 s.L2 }
  else { s with L3 := s.L3 ++ [t2] }

/-- Scheduler::ScheduleNext (scheduler.cc 277-296): pop the front of L1,
else L2, else L3, else return NULL (none). -/
def scheduleNext (s : SchedState) : Option Thread × SchedState :=
  match s.L1 with
  | t :: ts => (some t, { s with L1 := ts })
  | [] =>
    match s.L2 with
    | t :: ts => (some t, { s with L2 := ts })
    | [] =>
      match s.L3 with
      | t :: ts => (some t, { s with L3 := ts })
      | [] => (none, s)

/-- Scheduler::CheckPreempt (scheduler.cc 325-340), with kernel's current
thread passed explicitly.  The C++ function is declared bool but the
branch for a current L1 thread with an empty L1 queue reaches the end of
the function without executing any return statement (undefined value);
that outcome is modelled as none. -/
def checkPreempt (current : Thread) (s : SchedState) : Option Bool :=
  if whichQueue current = 1 then
    match s.L1 with
    | [] => none
    | front :: _ => some (front.remain_burst < current.remain_burst)
  else if whichQueue current = 2 then
    some (!s.L1.isEmpty)
  else if whichQueue current = 3 then
    if s.L3.isEmpty then some false else some true
  else none

/-- The L1 pass of Scheduler::Aging (scheduler.cc 211-226): every L1
resident gets total_ready_time = now - insert_ready_time; if that reached
1500 the priority is raised by 10 saturating at 149 and
insert_ready_time advances by 1500 (a single increment per call). -/
def agingL1 (now : Int) : List Thread → List Thread
  | [] => []
  | t :: ts =>
    let trt := now - t.insert_ready_time
    if trt ≥ 1500 then
      { t with priority := if t.priority + 10 > 149 then 149 else t.priority + 10,
               total_ready_time := trt - 1500,
               insert_ready_time := t.insert_ready_time + 1500 } :: agingL1 now ts
    else
      { t with total_ready_time := trt } :: agingL1 now ts

/-- The L2 pass of Scheduler::Aging (scheduler.cc 227-250), threading the
L1 queue it promotes into: an aged L2 thread whose new priority reaches
100 is inserted into L1 and removed from L2.  Returns (L1, L2) after the
pass. -/
def agingL2 (now : Int) (l1 : List Thread) :
    List Thread → List Thread × List Thread
  | [] => (l1, [])
  | t :: ts =>
    let trt := now - t.insert_ready_time
    if trt ≥ 1500 then
      let t' := { t with priority := t.priority + 10,
                         total_ready_time := trt - 1500,
                         insert_ready_time := t.insert_ready_time + 1500 }
      if t'.priority ≥ 100 then
        agingL2 now (sortedInsert compL1 t' l1) ts
      else
        let r := agingL2 now l1 ts
        (r.1, t' :: r.2)
    else
      let r := agingL2 now l1 ts
      (r.1, { t with total_ready_time := trt } :: r.2)

/-- The L3 pass of Scheduler::Aging (scheduler.cc 251-274), threading the
L2 queue it promotes into: an aged L3 thread whose new priority reaches
50 is inserted into L2 and removed from L3. -/
def agingL3 (now : Int) (l2 : List Thread) :
    List Thread → List Thread × List Thread
  | [] => (l2, [])
  | t :: ts =>
    let trt := now - t.insert_ready_time
    if trt ≥ 1500 then
      let t' := { t with priority := t.priority + 10,
                         total_ready_time := trt - 1500,
                         insert_ready_time := t.insert_ready_time + 1500 }
      if t'.priority ≥ 50 then
        agingL3 now (sortedInsert compL2 t' l2) ts
      else
        let r := agingL3 now l2 ts
        (r.1, t' :: r.2)
    else
      let r := agingL3 now l2 ts
      (r.1, { t with total_ready_time := trt } :: r.2)

/-- Scheduler::Aging (scheduler.cc 208-275): age L1, then L2 (promoting
into the already-aged L1), then L3 (promoting into the already-aged L2). -/
def aging (now : Int) (s : SchedState) : SchedState :=
  let l1a := agingL1 now s.L1
  let p2 := agingL2 now l1a s.L2
  let p3 := agingL3 now p2.2 s.L3
  ⟨p2.1, p3.1, p3.2⟩

/-! ## File system (filesys/).  Constants: SectorSize is the external
disk's sector size; NumDirect and the per-level byte capacities follow
the spec formulas (filehdr.h is not among the given source files;
standard NachOS values, NumDirect = (SectorSize - 8) / 4 = 30). -/

def SectorSize : Int := 128

def NumDirect : Int := 30

def bytes_in_level1 : Int := NumDirect * SectorSize

def bytes_in_level2 : Int := NumDirect * bytes_in_level1

def bytes_in_level3 : Int := NumDirect * bytes_in_level2

/-- divRoundUp of utility.h on C++ ints (truncating division). -/
def divRoundUpI (n v : Int) : Int := (n + v - 1).tdiv v

/-- A file header (inode) together with everything reachable from it on
disk: a leaf header carries raw data-sector numbers; an indirect header
carries, per slot, the sector number the child header was written to and
the child header itself (FileHeader::FetchFrom on that sector is modelled
by taking the stored subtree). -/
inductive FH where
  | leaf (numBytes : Int) (sectors : List Int)
  | node (numBytes : Int) (children : List (Int × FH))
deriving Repr

/-- The numBytes field of the header. -/
def FH.numBytes : FH → Int
  | .leaf nb _ => nb
  | .node nb _ => nb

/-- The raw dataSectors array as stored on disk (for an indirect header
these are the child-header sector numbers). -/
def FH.rawSectors : FH → List Int
  | .leaf _ ss => ss
  | .node _ cs => cs.map Prod.fst

instance : Inhabited FH := ⟨.leaf 0 []⟩

/-! ### Persistent bitmap (pbitmap/bitmap are external collaborators;
modelled from the spec §4.5: FindAndSet claims a clear bit and returns
it, or −1 when none is left; NumClear counts clear bits).  A bit true
means the sector is in use. -/

/-- Bitmap::NumClear. -/
def numClear (fm : List Bool) : Nat := (fm.filter (fun b => !b)).length

/-- Number of set (used) bits of the free map. -/
def numSet (fm : List Bool) : Nat := (fm.filter (fun b => b)).length

/-- Modelled from the spec: Bitmap::FindAndSet — find a clear bit, mark
it, return its index; none models the −1 return. -/
def findAndSet : List Bool → Option (Nat × List Bool)
  | [] => none
  | b :: bs =>
    if b then (findAndSet bs).map (fun r => (r.1 + 1, b :: r.2))
    else some (0, true :: bs)

/-- Bitmap::Clear.  The external bitmap.cc would assert on an
out-of-range index; the model is total and leaves the map unchanged
there. -/
def clearBit (s : Int) (fm : List Bool) : List Bool :=
  if s < 0 then fm else fm.set s.toNat false

/-! ### FileHeader::Allocate (filehdr.cc 43-125).  The recursion is
stratified: a child call always receives a size of at most the next
lower level's capacity, so Allocate at nesting depth k is the
specialization allocateK below; allocate = allocate3 is the entry point.
Every level starts with the NumClear pre-check against the leaf-sector
count of its own fileSize.  ASSERT(dataSectors[idx] >= 0) firing (a
FindAndSet failure) aborts the program and is modelled as none; note the
C++ callers discard the boolean returned by child Allocate calls. -/

/-- The leaf allocation loop: claim `k` data sectors in order. -/
def claimSectors : Nat → List Bool → Option (List Int × List Bool)
  | 0, fm => some ([], fm)
  | k + 1, fm =>
    match findAndSet fm with
    | none => none
    | some (s, fm1) =>
      (claimSectors k fm1).map (fun r => ((s : Int) :: r.1, r.2))

/-- An indirect-level while-loop of Allocate: claim a sector for the
child header, allocate the child (its boolean result is discarded, as in
the source), record (sector, child), and advance by the level capacity.
The loop runs ceil(remain / step) times; it is driven by a Nat fuel for
which the call sites pass remain.toNat — at least the iteration count
whenever step ≥ 1, so the fuel-exhausted branch coincides with the
loop-exit condition. -/
def allocLoop (step : Int)
    (child : Int → List Bool → Option (Bool × FH × List Bool)) :
    Nat → Int → List Bool → Option (List (Int × FH) × List Bool)
  | 0, _, fm => some ([], fm)
  | fuel + 1, remain, fm =>
    if 0 < remain then
      match findAndSet fm with
      | none => none
      | some (s, fm1) =>
        let childSize := if remain ≥ step then step else remain
        match child childSize fm1 with
        | none => none
        | some (_ok, hdr, fm2) =>
          (allocLoop step child fuel (remain - step) fm2).map
            (fun r => (((s : Int), hdr) :: r.1, r.2))
    else some ([], fm)

/-- FileHeader::Allocate for a leaf-level call (fileSize ≤ bytes_in_level1
at every call site). -/
def allocate0 (fileSize : Int) (fm : List Bool) :
    Option (Bool × FH × List Bool) :=
  let numSectors := divRoundUpI fileSize SectorSize
  if (numClear fm : Int) < numSectors then some (false, .leaf fileSize [], fm)
  else (claimSectors numSectors.toNat fm).map
    (fun r => (true, .leaf fileSize r.1, r.2))

/-- FileHeader::Allocate for a call of nesting depth at most 1
(fileSize ≤ bytes_in_level2 at every call site). -/
def allocate1 (fileSize : Int) (fm : List Bool) :
    Option (Bool × FH × List Bool) :=
  let numSectors := divRoundUpI fileSize SectorSize
  if (numClear fm : Int) < numSectors then some (false, .leaf fileSize [], fm)
  else if fileSize > bytes_in_level1 then
    (allocLoop bytes_in_level1 allocate0 fileSize.toNat fileSize fm).map
      (fun r => (true, .node fileSize r.1, r.2))
  else (claimSectors numSectors.toNat fm).map
    (fun r => (true, .leaf fileSize r.1, r.2))

/-- FileHeader::Allocate for a call of nesting depth at most 2
(fileSize ≤ bytes_in_level3 at every call site). -/
def allocate2 (fileSize : Int) (fm : List Bool) :
    Option (Bool × FH × List Bool) :=
  let numSectors := divRoundUpI fileSize SectorSize
  if (numClear fm : Int) < numSectors then some (false, .leaf fileSize [], fm)
  else if fileSize > bytes_in_level2 then
    (allocLoop bytes_in_level2 allocate1 fileSize.toNat fileSize fm).map
      (fun r => (true, .node fileSize r.1, r.2))
  else if fileSize > bytes_in_level1 then
    (allocLoop bytes_in_level1 allocate0 fileSize.toNat fileSize fm).map
      (fun r => (true, .node fileSize r.1, r.2))
  else (claimSectors numSectors.toNat fm).map
    (fun r => (true, .leaf fileSize r.1, r.2))

/-- FileHeader::Allocate (filehdr.cc 43-125), all four levels. -/
def allocate (fileSize : Int) (fm : List Bool) :
    Option (Bool × FH × List Bool) :=
  let numSectors := divRoundUpI fileSize SectorSize
  if (numClear fm : Int) < numSectors then some (false, .leaf fileSize [], fm)
  else if fileSize > bytes_in_level3 then
    (allocLoop bytes_in_level3 allocate2 fileSize.toNat fileSize fm).map
      (fun r => (true, .node fileSize r.1, r.2))
  else if fileSize > bytes_in_level2 then
    (allocLoop bytes_in_level2 allocate1 fileSize.toNat fileSize fm).map
      (fun r => (true, .node fileSize r.1, r.2))
  else if fileSize > bytes_in_level1 then
    (allocLoop bytes_in_level1 allocate0 fileSize.toNat fileSize fm).map
      (fun r => (true, .node fileSize r.1, r.2))
  else (claimSectors numSectors.toNat fm).map
    (fun r => (true, .leaf fileSize r.1, r.2))

/-! ### FileHeader::Deallocate (filehdr.cc 134-190).  The leaf branch
clears the data sectors one SectorSize of bytes at a time; the indirect
branches recurse into the fetched child headers but never clear the
child-header sectors themselves. -/

/-- The leaf clearing loop of Deallocate. -/
def clearLoop : Int → List Int → List Bool → List Bool
  | _, [], fm => fm
  | remain, s :: ss, fm =>
    if 0 < remain then clearLoop (remain - SectorSize) ss (clearBit s fm)
    else fm

mutual

/-- FileHeader::Deallocate.  The dispatch is on numBytes, as in the
source; a leaf header always satisfies numBytes ≤ bytes_in_level1 for
well-formed trees, so its indirect branches (which in C++ would fetch
garbage child headers from the raw sectors) leave the map unchanged. -/
def deallocate : FH → List Bool → List Bool
  | .leaf nb ss, fm =>
    if nb > bytes_in_level1 then fm
    else clearLoop nb ss fm
  | .node nb cs, fm =>
    if nb > bytes_in_level3 then deallocLoop bytes_in_level3 nb cs fm
    else if nb > bytes_in_level2 then deallocLoop bytes_in_level2 nb cs fm
    else if nb > bytes_in_level1 then deallocLoop bytes_in_level1 nb cs fm
    else clearLoop nb (cs.map Prod.fst) fm

/-- An indirect-level while-loop of Deallocate: fetch the child header
and deallocate it; the loop ends when the byte budget is exhausted. -/
def deallocLoop (step : Int) : Int → List (Int × FH) → List Bool → List Bool
  | _, [], fm => fm
  | remain, c :: cs, fm =>
    if 0 < remain then deallocLoop step (remain - step) cs (deallocate c.2 fm)
    else fm

end

/-! ### FileHeader::ByteToSector (filehdr.cc 226-254).  Only the leaf
branch contains a return statement; each indirect branch computes the
child's ByteToSector and then discards it, and control reaches the end
of the non-void function: there is no defined return value, modelled as
none. -/

/-- FileHeader::ByteToSector as compiled: the indirect branches fall off
the end of the function (none); the leaf branch returns
dataSectors[offset / SectorSize]. -/
def byteToSector (h : FH) (offset : Int) : Option Int :=
  if h.numBytes > bytes_in_level3 then none
  else if h.numBytes > bytes_in_level2 then none
  else if h.numBytes > bytes_in_level1 then none
  else some (h.rawSectors.getD (offset.tdiv SectorSize).toNat 0)

mutual

/-- Modelled from the spec: ByteToSector as specified — "recurse through
levels dividing by the current-level capacity until reaching a leaf and
returning dataSectors[offset / SectorSize]"; the recursion's result is
returned (the missing behavior of the source's indirect branches). -/
def byteToSectorRef : FH → Int → Option Int
  | .leaf _ ss, offset => some (ss.getD (offset.tdiv SectorSize).toNat 0)
  | .node nb cs, offset =>
    let step := if nb > bytes_in_level3 then bytes_in_level3
      else if nb > bytes_in_level2 then bytes_in_level2
      else bytes_in_level1
    let idx := offset.tdiv step
    btsAux step idx.toNat (offset - step * idx) cs

/-- Walk to the idx-th child of an indirect header and recurse into it
(the dataSectors[idx] fetch of the specified ByteToSector). -/
def btsAux (step : Int) : Nat → Int → List (Int × FH) → Option Int
  | _, _, [] => none
  | 0, off, c :: _ => byteToSectorRef c.2 off
  | n + 1, off, _ :: cs => btsAux step n off cs

end

/-! ### FileHeader::CountHeader (filehdr.cc 330-382). -/

mutual

/-- FileHeader::CountHeader: 1 at a leaf header; at an indirect header,
the sum over the fetched children of their CountHeader (the indirect
header itself is not counted). -/
def countHeader : FH → Int
  | .leaf _ _ => 1
  | .node nb cs =>
    if nb > bytes_in_level3 then countLoop bytes_in_level3 nb cs
    else if nb > bytes_in_level2 then countLoop bytes_in_level2 nb cs
    else if nb > bytes_in_level1 then countLoop bytes_in_level1 nb cs
    else 1

/-- An indirect-level while-loop of CountHeader. -/
def countLoop (step : Int) : Int → List (Int × FH) → Int
  | _, [] => 0
  | remain, c :: cs =>
    if 0 < remain then countHeader c.2 + countLoop step (remain - step) cs
    else 0

end

mutual

/-- The number of header (inode) sectors reachable from a header, the
header itself included — the quantity the claim says CountHeader
returns. -/
def totalHeaders : FH → Int
  | .leaf _ _ => 1
  | .node _ cs => 1 + totalHeadersList cs

/-- Sum of totalHeaders over a child list. -/
def totalHeadersList : List (Int × FH) → Int
  | [] => 0
  | c :: cs => totalHeaders c.2 + totalHeadersList cs

end

mutual

/-- The number of indirect (internal) header sectors reachable from a
header, the header itself included when it is indirect. -/
def internalHeaders : FH → Int
  | .leaf _ _ => 0
  | .node _ cs => 1 + internalHeadersList cs

/-- Sum of internalHeaders over a child list. -/
def internalHeadersList : List (Int × FH) → Int
  | [] => 0
  | c :: cs => internalHeaders c.2 + internalHeadersList cs

end

mutual

/-- Well-formedness of a header tree: the shape FileHeader::Allocate
builds — a leaf holds exactly ceil(numBytes / SectorSize) data sectors
and numBytes ≤ bytes_in_level1; an indirect header's numBytes selects
its level, and its children cover the byte budget with the sizes the
allocation loop hands out. -/
def wfFH : FH → Bool
  | .leaf nb ss =>
    decide (0 ≤ nb) && decide (nb ≤ bytes_in_level1) &&
      (ss.length == (divRoundUpI nb SectorSize).toNat)
  | .node nb cs =>
    if nb > bytes_in_level3 then wfLoop bytes_in_level3 nb cs
    else if nb > bytes_in_level2 then wfLoop bytes_in_level2 nb cs
    else if nb > bytes_in_level1 then wfLoop bytes_in_level1 nb cs
    else false

/-- Well-formedness of a child list against a remaining byte budget. -/
def wfLoop (step : Int) : Int → List (Int × FH) → Bool
  | remain, [] => decide (remain ≤ 0)
  | remain, c :: cs =>
    decide (0 < remain) &&
      (c.2.numBytes == if remain ≥ step then step else remain) &&
      wfFH c.2 && wfLoop step (remain - step) cs

end

/-! ## Directory (filesys/directory.cc).  A directory is a fixed table of
NumDirEntries entries.  Names are compared with strncmp up to
FileNameMaxLen; the claims use short names, modelled by whole-string
equality. -/

structure DirEntry where
  inUse : Bool
  isdir : Bool
  name : String
  sector : Int
deriving Repr, DecidableEq

instance : Inhabited DirEntry := ⟨⟨false, false, "", -1⟩⟩

/-- Directory::FindIndex: index of the inUse entry matching the name. -/
def dirFindIdx (dir : List DirEntry) (nm : String) : Option Nat :=
  dir.findIdx? (fun e => e.inUse && e.name == nm)

/-- Directory::Find: sector of the matching entry, or −1. -/
def dirFind (dir : List DirEntry) (nm : String) : Int :=
  match dirFindIdx dir nm with
  | some i => (dir.getD i default).sector
  | none => -1

/-- Directory::FindDirIndex: like FindIndex but only isdir entries. -/
def dirFindDirIdx (dir : List DirEntry) (nm : String) : Option Nat :=
  dir.findIdx? (fun e => e.inUse && e.isdir && e.name == nm)

/-- Directory::FindDir: sector of the matching directory entry, or −1. -/
def dirFindDir (dir : List DirEntry) (nm : String) : Int :=
  match dirFindDirIdx dir nm with
  | some i => (dir.getD i default).sector
  | none => -1

/-- Directory::Add: reject duplicates, else fill the first free slot. -/
def dirAdd (dir : List DirEntry) (nm : String) (newSector : Int) :
    Bool × List DirEntry :=
  if (dirFindIdx dir nm).isSome then (false, dir)
  else
    match dir.findIdx? (fun e => !e.inUse) with
    | none => (false, dir)
    | some i => (true, dir.set i ⟨true, false, nm, newSector⟩)

/-- Directory::Remove: clear the inUse and isdir flags of the match. -/
def dirRemove (dir : List DirEntry) (nm : String) : Bool × List DirEntry :=
  match dirFindIdx dir nm with
  | none => (false, dir)
  | some i =>
    (true, dir.set i { dir.getD i default with inUse := false, isdir := false })

/-! ## FileSystem (filesys/filesys.cc).  The on-disk state authoritative
after write-backs: the free map, the target directory's table, and the
headers stored at each sector.  Create and Remove are modelled at the
directory the path walk resolves to (the claims concern the allocation
bookkeeping in that directory). -/

structure FSState where
  freeMap : List Bool
  dir : List DirEntry
  disk : Int → FH

/-- FileSystem::Create (filesys.cc 179-233), at its resolved target
directory.  On any sub-step failure nothing is written back, so the
on-disk state is returned unchanged; the assert-abort inside
FileHeader::Allocate propagates as none.  Child-header WriteBacks during
Allocate are represented by the subtrees embedded in the header tree
stored at the claimed header sector. -/
def create (nm : String) (initialSize : Int) (st : FSState) :
    Option (Bool × FSState) :=
  if dirFind st.dir nm ≥ 0 then some (false, st)
  else
    match findAndSet st.freeMap with
    | none => some (false, st)
    | some (hs, fm1) =>
      let add := dirAdd st.dir nm (hs : Int)
      if !add.1 then some (false, st)
      else
        match allocate initialSize fm1 with
        | none => none
        | some (ok, hdr, fm2) =>
          if !ok then some (false, st)
          else some (true,
            ⟨fm2, add.2, fun s => if s = (hs : Int) then hdr else st.disk s⟩)

/-- FileSystem::Remove (filesys.cc 351-396), at its resolved target
directory: find the header sector, deallocate the data blocks, clear the
header sector, drop the directory entry, write back. -/
def remove (nm : String) (st : FSState) : Bool × FSState :=
  let sector := dirFind st.dir nm
  if sector = -1 then (false, st)
  else
    let hdr := st.disk sector
    let fm1 := deallocate hdr st.freeMap
    let fm2 := clearBit sector fm1
    (true, ⟨fm2, (dirRemove st.dir nm).2, st.disk⟩)

/-- The sector the root-directory header lives at. -/
def DirectorySector : Int := 1

/-- The path-resolution loop of FileSystem::RemoveDir (filesys.cc
412-423).  `dirs` maps a directory-header sector to the stored table;
`temp` is the OpenFile local (none = NULL); `sector` and `preTok` start
as the uninitialized locals of the C++ function and keep their values
when the loop body never reaches the corresponding assignment.  Returns
the final (sector, pre_token, prevDirOpenFile's sector). -/
def rdLoop (dirs : Int → List DirEntry) :
    List String → List DirEntry → Option Int → Int → String → Int →
    Int × String × Int
  | [], _, _, sector, preTok, prev => (sector, preTok, prev)
  | tok :: rest, cur, temp, _, preTok, _ =>
    let prev' := match temp with
      | none => DirectorySector
      | some ts => ts
    let s := dirFindDir cur tok
    if s < 0 then (s, preTok, prev')
    else rdLoop dirs rest (dirs s) (some s) s tok prev'

/-- FileSystem::RemoveDir (filesys.cc 398-442).  There is no failure
branch: whatever the resolution loop leaves in `sector`, the function
fetches a header from it, deallocates it, clears that sector in the free
map, removes pre_token from the previous directory, writes everything
back, and returns TRUE.  `sector0` and `preTok0` model the function's
uninitialized locals.  Returns (return value, free map, directories). -/
def removeDir (dirs : Int → List DirEntry) (disk : Int → FH)
    (fm : List Bool) (tokens : List String) (sector0 : Int)
    (preTok0 : String) : Bool × List Bool × (Int → List DirEntry) :=
  let r := rdLoop dirs tokens (dirs DirectorySector) none sector0 preTok0
    DirectorySector
  let hdr := disk r.1
  let fm1 := deallocate hdr fm
  let fm2 := clearBit r.1 fm1
  let parent := dirs r.2.2
  let dir' := (dirRemove parent r.2.1).2
  (true, fm2, fun s => if s = r.2.2 then dir' else dirs s)

/-! ## Theorems -/

/-- C1: AddrSpace::Translate checks failures in this order — vpn out of
range gives AddressErrorException, then a write to a readOnly entry
gives ReadOnlyException, then an out-of-range physical page gives
BusErrorException; each failure returns the page table unchanged (in
particular a write to a readOnly page sets no dirty flag).  On success
the entry gets use = true (and dirty = true exactly when writing), and
the returned physical address physicalPage * PageSize + vaddr mod
PageSize is below MemorySize. -/
theorem translate_correct (pt : List TranslationEntry) (vaddr : Nat)
    (w : Bool) :
    (vaddr / PageSize ≥ pt.length →
      translate pt vaddr w = (.AddressErrorException, none, pt)) ∧
    (vaddr / PageSize < pt.length → w = true →
      (pt.getD (vaddr / PageSize) default).readOnly = true →
      translate pt vaddr w = (.ReadOnlyException, none, pt)) ∧
    (vaddr / PageSize < pt.length →
      (w && (pt.getD (vaddr / PageSize) default).readOnly) = false →
      (pt.getD (vaddr / PageSize) default).physicalPage ≥ NumPhysPages →
      translate pt vaddr w = (.BusErrorException, none, pt)) ∧
    (vaddr / PageSize < pt.length →
      (w && (pt.getD (vaddr / PageSize) default).readOnly) = false →
      (pt.getD (vaddr / PageSize) default).physicalPage < NumPhysPages →
      translate pt vaddr w =
        (.NoException,
          some ((pt.getD (vaddr / PageSize) default).physicalPage * PageSize +
            vaddr % PageSize),
          pt.set (vaddr / PageSize)
            { pt.getD (vaddr / PageSize) default with
                use := true,
                dirty := if w then true
                  else (pt.getD (vaddr / PageSize) default).dirty }) ∧
      (pt.getD (vaddr / PageSize) default).physicalPage * PageSize +
        vaddr % PageSize < MemorySize) := by
  refine ⟨?_, ?_, ?_, ?_⟩
  · intro h
    simp only [translate]
    rw [if_pos h]
  · intro h1 h2 h3
    simp only [translate]
    rw [if_neg (by omega), if_pos (by rw [h2, h3]; rfl)]
  · intro h1 h2 h3
    simp only [translate]
    rw [if_neg (by omega), if_neg (by rw [h2]; decide), if_pos h3]
  · intro h1 h2 h3
    constructor
    · simp only [translate]
      rw [if_neg (by omega), if_neg (by rw [h2]; decide), if_neg (by omega)]
    · have hmod : vaddr % PageSize < PageSize :=
        Nat.mod_lt vaddr (by simp [PageSize])
      simp only [PageSize, NumPhysPages, MemorySize] at *
      omega

/-- Witness for C1 at a concrete table and write access: the success
branch applies. -/
theorem translate_correct_witness :
    translate [⟨0, 3, true, false, false, false⟩] 5 true =
      (.NoException, some 389, [⟨0, 3, true, true, true, false⟩]) := by
  have h := ((translate_correct [⟨0, 3, true, false, false, false⟩] 5
    true).2.2.2 (by decide) (by decide) (by decide)).1
  exact h.trans (by decide)

/-- Lemma for C2: the frame-claiming loop of Load claims exactly `need`
frames when the table has at least that many free ones, and the free
count drops accordingly. -/
theorem allocFramesLoop_count (ft : List Bool) :
    ∀ i need, need ≤ countFree ft →
      (allocFramesLoop ft i need).2.length = need ∧
      countFree (allocFramesLoop ft i need).1 = countFree ft - need := by
  induction ft with
  | nil =>
    intro i need h
    simp [countFree] at h
    simp [allocFramesLoop, h, countFree]
  | cons f fs ih =>
    intro i need h
    by_cases h0 : need = 0
    · subst h0
      simp [allocFramesLoop]
    · rw [allocFramesLoop]
      rw [if_neg h0]
      cases f with
      | true =>
        simp only [if_pos rfl]
        have hle : need - 1 ≤ countFree fs := by
          simp [countFree, List.filter] at h ⊢
          omega
        have := ih (i + 1) (need - 1) hle
        simp only [countFree, List.filter] at *
        constructor
        · simp [this.1]; omega
        · simp [this.2]; omega
      | false =>
        simp only [Bool.false_eq_true, if_false]
        have hle : need ≤ countFree fs := by
          simpa [countFree, List.filter] using h
        have := ih (i + 1) need hle
        simp only [countFree, List.filter] at *
        constructor
        · simp [this.1]
        · simp [this.2]

/-- C2: when the computed page count exceeds the free-frame count, Load
raises MemoryLimitException and returns false with the frame table and
FreeFrame counter unchanged and no page mapped; when the page count
equals the free-frame count, the load succeeds, mapping exactly numPages
pages and leaving no free frame. -/
theorem load_memory_limit (numPages : Nat) (ft : List Bool)
    (freeFrame : Nat) (hinv : freeFrame = countFree ft) :
    (numPages > freeFrame →
      load numPages ft freeFrame =
        (some .MemoryLimitException, false, ft, freeFrame, [])) ∧
    (numPages = freeFrame →
      ∃ ft' pgt, load numPages ft freeFrame = (none, true, ft', 0, pgt) ∧
        pgt.length = numPages ∧ countFree ft' = 0) := by
  constructor
  · intro h
    simp [load, h]
  · intro h
    subst h
    have hc := allocFramesLoop_count ft 0 numPages (by omega)
    refine ⟨(allocFramesLoop ft 0 numPages).1,
      mkPageTable (allocFramesLoop ft 0 numPages).2, ?_, ?_, ?_⟩
    · simp only [load]
      rw [if_neg (by omega)]
      simp [hc.1]
    · simp [mkPageTable, hc.1]
    · rw [hc.2]; omega

/-- Witness for C2 at a concrete frame table with 3 free frames: loading
3 pages succeeds and loading 4 raises MemoryLimitException. -/
theorem load_memory_limit_witness :
    load 4 [true, false, true, true] 3 =
      (some .MemoryLimitException, false, [true, false, true, true], 3, []) ∧
    ∃ ft' pgt, load 3 [true, false, true, true] 3 = (none, true, ft', 0, pgt) ∧
      pgt.length = 3 ∧ countFree ft' = 0 := by
  constructor
  · exact (load_memory_limit 4 [true, false, true, true] 3 (by decide)).1
      (by decide)
  · exact (load_memory_limit 3 [true, false, true, true] 3 (by decide)).2 rfl

/-- C3, failing input: with the current thread in the L1 band and the L1
queue empty, Scheduler::CheckPreempt executes no return statement — the
claim says it returns false there, but the branch for an L1-band current
thread only returns when L1 is non-empty, so control falls off the end
of the bool function and the returned value is undefined (none in the
model).  The other branches of the claim do hold (see
checkPreempt_defined_branches). -/
theorem checkPreempt_l1_empty_undefined :
    checkPreempt ⟨120, 40, 0, 0, 0, 0, .RUNNING⟩ ⟨[], [], []⟩ = none := rfl

/-- The branches of Scheduler::CheckPreempt that do execute a return
statement behave as the claim states: L1-band current thread with
non-empty L1 — true iff the L1 front's remain_burst is strictly below
the current one's; L2-band — true iff L1 is non-empty; L3-band — true
iff L3 is non-empty. -/
theorem checkPreempt_defined_branches (t : Thread) (s : SchedState) :
    (whichQueue t = 1 → ∀ front rest, s.L1 = front :: rest →
      checkPreempt t s = some (decide (front.remain_burst < t.remain_burst))) ∧
    (whichQueue t = 2 →
      checkPreempt t s = some (!s.L1.isEmpty)) ∧
    (whichQueue t = 3 →
      checkPreempt t s = some (!s.L3.isEmpty)) := by
  refine ⟨?_, ?_, ?_⟩
  · intro hq front rest hL1
    simp [checkPreempt, hq, hL1]
  · intro hq
    have h1 : whichQueue t ≠ 1 := by rw [hq]; decide
    simp [checkPreempt, h1, hq]
  · intro hq
    have h1 : whichQueue t ≠ 1 := by rw [hq]; decide
    have h2 : whichQueue t ≠ 2 := by rw [hq]; decide
    cases h3 : s.L3.isEmpty with
    | true => simp [checkPreempt, h1, h2, hq, h3]
    | false => simp [checkPreempt, h1, h2, hq, h3]

/-- Witness for checkPreempt_defined_branches: an L2-band current thread
with a waiting L1 thread is preempted. -/
theorem checkPreempt_defined_branches_witness :
    checkPreempt ⟨70, 40, 0, 0, 0, 0, .RUNNING⟩
      ⟨[⟨120, 25, 0, 0, 0, 0, .READY⟩], [], []⟩ = some true := by
  have h := (checkPreempt_defined_branches ⟨70, 40, 0, 0, 0, 0, .RUNNING⟩
    ⟨[⟨120, 25, 0, 0, 0, 0, .READY⟩], [], []⟩).2.1 (by decide)
  exact h.trans (by decide)

/-- C5: Scheduler::ScheduleNext pops and returns the front of L1 if L1
is non-empty, else of L2, else of L3, else returns NONE; in particular
three threads of priorities 120, 70 and 20 made ready together are
returned in exactly that order. -/
theorem scheduleNext_priority (s : SchedState) :
    (∀ t ts, s.L1 = t :: ts →
      scheduleNext s = (some t, ⟨ts, s.L2, s.L3⟩)) ∧
    (s.L1 = [] → ∀ t ts, s.L2 = t :: ts →
      scheduleNext s = (some t, ⟨s.L1, ts, s.L3⟩)) ∧
    (s.L1 = [] → s.L2 = [] → ∀ t ts, s.L3 = t :: ts →
      scheduleNext s = (some t, ⟨s.L1, s.L2, ts⟩)) ∧
    (s.L1 = [] → s.L2 = [] → s.L3 = [] → scheduleNext s = (none, s)) ∧
    (∀ now,
      let a : Thread := ⟨120, 5, 0, 0, 0, 0, .JUST_CREATED⟩
      let b : Thread := ⟨70, 5, 0, 0, 0, 0, .JUST_CREATED⟩
      let c : Thread := ⟨20, 5, 0, 0, 0, 0, .JUST_CREATED⟩
      let s0 := putToReady now c (putToReady now b (putToReady now a
        ⟨[], [], []⟩))
      let p1 := scheduleNext s0
      let p2 := scheduleNext p1.2
      let p3 := scheduleNext p2.2
      p1.1.map Thread.priority = some 120 ∧
      p2.1.map Thread.priority = some 70 ∧
      p3.1.map Thread.priority = some 20) := by
  refine ⟨?_, ?_, ?_, ?_, ?_⟩
  · intro t ts h
    cases s with
    | mk l1 l2 l3 => cases h; rfl
  · intro h1 t ts h2
    cases s with
    | mk l1 l2 l3 =>
      simp only at h1 h2
      subst h1; cases h2; rfl
  · intro h1 h2 t ts h3
    cases s with
    | mk l1 l2 l3 =>
      simp only at h1 h2 h3
      subst h1; subst h2; cases h3; rfl
  · intro h1 h2 h3
    cases s with
    | mk l1 l2 l3 =>
      simp only at h1 h2 h3
      subst h1; subst h2; subst h3; rfl
  · intro now
    refine ⟨?_, ?_, ?_⟩ <;>
      simp [putToReady, whichQueue, sortedInsert, compL1, compL2,
        scheduleNext]

/-- Witness for C5 at a concrete queue state: the L1 front is popped
before a waiting L2 thread. -/
theorem scheduleNext_priority_witness :
    scheduleNext ⟨[⟨120, 5, 0, 0, 0, 0, .READY⟩],
        [⟨70, 5, 0, 0, 0, 0, .READY⟩], []⟩ =
      (some ⟨120, 5, 0, 0, 0, 0, .READY⟩,
        ⟨[], [⟨70, 5, 0, 0, 0, 0, .READY⟩], []⟩) := by
  exact (scheduleNext_priority ⟨[⟨120, 5, 0, 0, 0, 0, .READY⟩],
    [⟨70, 5, 0, 0, 0, 0, .READY⟩], []⟩).1 _ _ rfl

/-- C4, counterexample: an L1 thread that has waited 3000 ticks (two full
1500-tick periods) gets a single +10 increment from one Aging call —
priority 110, not the 100 + 10 * (3000 / 1500) = 120 the claim
prescribes — and its insert_ready_time advances by one 1500, not one per
increment. -/
theorem aging_counterexample :
    ((aging 3000 ⟨[⟨100, 5, 0, 0, 0, 0, .READY⟩], [], []⟩).L1.headD
        default).priority = 110 ∧
    ((aging 3000 ⟨[⟨100, 5, 0, 0, 0, 0, .READY⟩], [], []⟩).L1.headD
        default).priority ≠ 100 + 10 * ((3000 - 0) / 1500) ∧
    ((aging 3000 ⟨[⟨100, 5, 0, 0, 0, 0, .READY⟩], [], []⟩).L1.headD
        default).insert_ready_time = 1500 := by decide

/-- Membership in a sorted insertion. -/
theorem mem_sortedInsert (comp : Thread → Thread → Int) (t a : Thread) :
    ∀ l, a ∈ sortedInsert comp t l ↔ a = t ∨ a ∈ l := by
  intro l
  induction l with
  | nil => simp [sortedInsert]
  | cons x xs ih =>
    simp only [sortedInsert]
    split
    · simp [List.mem_cons]
    · simp only [List.mem_cons, ih]
      tauto

/-- The L1 pass of Aging transforms each resident in place. -/
theorem agingL1_mem (now : Int) {t : Thread} : ∀ {l : List Thread}, t ∈ l →
    (1500 ≤ now - t.insert_ready_time →
      { t with priority := if t.priority + 10 > 149 then 149
                 else t.priority + 10,
               total_ready_time := now - t.insert_ready_time - 1500,
               insert_ready_time := t.insert_ready_time + 1500 } ∈
        agingL1 now l) ∧
    (now - t.insert_ready_time < 1500 →
      { t with total_ready_time := now - t.insert_ready_time } ∈
        agingL1 now l) := by
  intro l h
  induction l with
  | nil => cases h
  | cons x xs ih =>
    rcases List.mem_cons.mp h with rfl | hmem
    · constructor
      · intro hge
        simp only [agingL1]
        rw [if_pos (by omega)]
        exact List.mem_cons_self _ _
      · intro hlt
        simp only [agingL1]
        rw [if_neg (by omega)]
        exact List.mem_cons_self _ _
    · have ihm := ih hmem
      constructor
      · intro hge
        simp only [agingL1]
        split
        · exact List.mem_cons_of_mem _ (ihm.1 hge)
        · exact List.mem_cons_of_mem _ (ihm.1 hge)
      · intro hlt
        simp only [agingL1]
        split
        · exact List.mem_cons_of_mem _ (ihm.2 hlt)
        · exact List.mem_cons_of_mem _ (ihm.2 hlt)

/-- The L2 pass of Aging only inserts into (never drops from) the L1
queue it threads. -/
theorem agingL2_l1_mono (now : Int) {x : Thread} :
    ∀ l2 l1, x ∈ l1 → x ∈ (agingL2 now l1 l2).1 := by
  intro l2
  induction l2 with
  | nil =>
    intro l1 h
    simpa [agingL2] using h
  | cons t ts ih =>
    intro l1 h
    simp only [agingL2]
    split
    · split
      · exact ih _ ((mem_sortedInsert compL1 _ x _).mpr (Or.inr h))
      · exact ih _ h
    · exact ih _ h

/-- The L2 pass of Aging: a resident that aged past priority 100 ends up
in L1; one that aged but stayed below 100 remains in L2 with the new
priority; one whose wait is below 1500 remains in L2 with only its
total_ready_time refreshed. -/
theorem agingL2_mem (now : Int) {t : Thread} :
    ∀ l2 l1, t ∈ l2 →
    (1500 ≤ now - t.insert_ready_time → t.priority + 10 ≥ 100 →
      { t with priority := t.priority + 10,
               total_ready_time := now - t.insert_ready_time - 1500,
               insert_ready_time := t.insert_ready_time + 1500 } ∈
        (agingL2 now l1 l2).1) ∧
    (1500 ≤ now - t.insert_ready_time → t.priority + 10 < 100 →
      { t with priority := t.priority + 10,
               total_ready_time := now - t.insert_ready_time - 1500,
               insert_ready_time := t.insert_ready_time + 1500 } ∈
        (agingL2 now l1 l2).2) ∧
    (now - t.insert_ready_time < 1500 →
      { t with total_ready_time := now - t.insert_ready_time } ∈
        (agingL2 now l1 l2).2) := by
  intro l2
  induction l2 with
  | nil => intro l1 h; cases h
  | cons x xs ih =>
    intro l1 h
    rcases List.mem_cons.mp h with rfl | hmem
    · refine ⟨?_, ?_, ?_⟩
      · intro hge hcross
        simp only [agingL2]
        rw [if_pos (by omega), if_pos (by simpa using hcross)]
        exact agingL2_l1_mono now xs _
          ((mem_sortedInsert compL1 _ _ _).mpr (Or.inl rfl))
      · intro hge hstay
        simp only [agingL2]
        rw [if_pos (by omega), if_neg (by simpa using hstay)]
        exact List.mem_cons_self _ _
      · intro hlt
        simp only [agingL2]
        rw [if_neg (by omega)]
        exact List.mem_cons_self _ _
    · refine ⟨?_, ?_, ?_⟩
      · intro hge hcross
        simp only [agingL2]
        split
        · split
          · exact ((ih _ hmem).1 hge hcross)
          · exact ((ih _ hmem).1 hge hcross)
        · exact ((ih _ hmem).1 hge hcross)
      · intro hge hstay
        simp only [agingL2]
        split
        · split
          · exact ((ih _ hmem).2.1 hge hstay)
          · exact List.mem_cons_of_mem _ ((ih _ hmem).2.1 hge hstay)
        · exact List.mem_cons_of_mem _ ((ih _ hmem).2.1 hge hstay)
      · intro hlt
        simp only [agingL2]
        split
        · split
          · exact ((ih _ hmem).2.2 hlt)
          · exact List.mem_cons_of_mem _ ((ih _ hmem).2.2 hlt)
        · exact List.mem_cons_of_mem _ ((ih _ hmem).2.2 hlt)

/-- The L3 pass of Aging only inserts into (never drops from) the L2
queue it threads. -/
theorem agingL3_l2_mono (now : Int) {x : Thread} :
    ∀ l3 l2, x ∈ l2 → x ∈ (agingL3 now l2 l3).1 := by
  intro l3
  induction l3 with
  | nil =>
    intro l2 h
    simpa [agingL3] using h
  | cons t ts ih =>
    intro l2 h
    simp only [agingL3]
    split
    · split
      · exact ih _ ((mem_sortedInsert compL2 _ x _).mpr (Or.inr h))
      · exact ih _ h
    · exact ih _ h

/-- The L3 pass of Aging: a resident that aged past priority 50 ends up
in L2; one that aged but stayed below 50 remains in L3; one whose wait
is below 1500 remains in L3 with only its total_ready_time refreshed. -/
theorem agingL3_mem (now : Int) {t : Thread} :
    ∀ l3 l2, t ∈ l3 →
    (1500 ≤ now - t.insert_ready_time → t.priority + 10 ≥ 50 →
      { t with priority := t.priority + 10,
               total_ready_time := now - t.insert_ready_time - 1500,
               insert_ready_time := t.insert_ready_time + 1500 } ∈
        (agingL3 now l2 l3).1) ∧
    (1500 ≤ now - t.insert_ready_time → t.priority + 10 < 50 →
      { t with priority := t.priority + 10,
               total_ready_time := now - t.insert_ready_time - 1500,
               insert_ready_time := t.insert_ready_time + 1500 } ∈
        (agingL3 now l2 l3).2) ∧
    (now - t.insert_ready_time < 1500 →
      { t with total_ready_time := now - t.insert_ready_time } ∈
        (agingL3 now l2 l3).2) := by
  intro l3
  induction l3 with
  | nil => intro l2 h; cases h
  | cons x xs ih =>
    intro l2 h
    rcases List.mem_cons.mp h with rfl | hmem
    · refine ⟨?_, ?_, ?_⟩
      · intro hge hcross
        simp only [agingL3]
        rw [if_pos (by omega), if_pos (by simpa using hcross)]
        exact agingL3_l2_mono now xs _
          ((mem_sortedInsert compL2 _ _ _).mpr (Or.inl rfl))
      · intro hge hstay
        simp only [agingL3]
        rw [if_pos (by omega), if_neg (by simpa using hstay)]
        exact List.mem_cons_self _ _
      · intro hlt
        simp only [agingL3]
        rw [if_neg (by omega)]
        exact List.mem_cons_self _ _
    · refine ⟨?_, ?_, ?_⟩
      · intro hge hcross
        simp only [agingL3]
        split
        · split
          · exact ((ih _ hmem).1 hge hcross)
          · exact ((ih _ hmem).1 hge hcross)
        · exact ((ih _ hmem).1 hge hcross)
      · intro hge hstay
        simp only [agingL3]
        split
        · split
          · exact ((ih _ hmem).2.1 hge hstay)
          · exact List.mem_cons_of_mem _ ((ih _ hmem).2.1 hge hstay)
        · exact List.mem_cons_of_mem _ ((ih _ hmem).2.1 hge hstay)
      · intro hlt
        simp only [agingL3]
        split
        · split
          · exact ((ih _ hmem).2.2 hlt)
          · exact List.mem_cons_of_mem _ ((ih _ hmem).2.2 hlt)
        · exact List.mem_cons_of_mem _ ((ih _ hmem).2.2 hlt)

/-- C4, amended: per Aging call each waiting thread gets at most one
aging step — a thread whose wait (now − insert_ready_time) has reached
1500 has its priority raised by 10 once (saturating at 149 for L1
residents, unbounded for L2/L3) and its insert_ready_time advanced by
1500 once; if the new priority crosses its band boundary (≥ 100 from L2,
≥ 50 from L3) the thread is reinserted into the next-higher queue,
otherwise it stays in its queue; a thread whose wait is below 1500 keeps
its priority and its queue (only total_ready_time is refreshed). -/
theorem aging_amended (now : Int) (s : SchedState) :
    (∀ t ∈ s.L1,
      (1500 ≤ now - t.insert_ready_time →
        { t with priority := if t.priority + 10 > 149 then 149
                   else t.priority + 10,
                 total_ready_time := now - t.insert_ready_time - 1500,
                 insert_ready_time := t.insert_ready_time + 1500 } ∈
          (aging now s).L1) ∧
      (now - t.insert_ready_time < 1500 →
        { t with total_ready_time := now - t.insert_ready_time } ∈
          (aging now s).L1)) ∧
    (∀ t ∈ s.L2,
      (1500 ≤ now - t.insert_ready_time → t.priority + 10 ≥ 100 →
        { t with priority := t.priority + 10,
                 total_ready_time := now - t.insert_ready_time - 1500,
                 insert_ready_time := t.insert_ready_time + 1500 } ∈
          (aging now s).L1) ∧
      (1500 ≤ now - t.insert_ready_time → t.priority + 10 < 100 →
        { t with priority := t.priority + 10,
                 total_ready_time := now - t.insert_ready_time - 1500,
                 insert_ready_time := t.insert_ready_time + 1500 } ∈
          (aging now s).L2) ∧
      (now - t.insert_ready_time < 1500 →
        { t with total_ready_time := now - t.insert_ready_time } ∈
          (aging now s).L2)) ∧
    (∀ t ∈ s.L3,
      (1500 ≤ now - t.insert_ready_time → t.priority + 10 ≥ 50 →
        { t with priority := t.priority + 10,
                 total_ready_time := now - t.insert_ready_time - 1500,
                 insert_ready_time := t.insert_ready_time + 1500 } ∈
          (aging now s).L2) ∧
      (1500 ≤ now - t.insert_ready_time → t.priority + 10 < 50 →
        { t with priority := t.priority + 10,
                 total_ready_time := now - t.insert_ready_time - 1500,
                 insert_ready_time := t.insert_ready_time + 1500 } ∈
          (aging now s).L3) ∧
      (now - t.insert_ready_time < 1500 →
        { t with total_ready_time := now - t.insert_ready_time } ∈
          (aging now s).L3)) := by
  have hL1 : (aging now s).L1 = (agingL2 now (agingL1 now s.L1) s.L2).1 := rfl
  have hL2 : (aging now s).L2 =
    (agingL3 now (agingL2 now (agingL1 now s.L1) s.L2).2 s.L3).1 := rfl
  have hL3 : (aging now s).L3 =
    (agingL3 now (agingL2 now (agingL1 now s.L1) s.L2).2 s.L3).2 := rfl
  refine ⟨?_, ?_, ?_⟩
  · intro t ht
    constructor
    · intro hge
      rw [hL1]
      exact agingL2_l1_mono now s.L2 _ ((agingL1_mem now ht).1 hge)
    · intro hlt
      rw [hL1]
      exact agingL2_l1_mono now s.L2 _ ((agingL1_mem now ht).2 hlt)
  · intro t ht
    refine ⟨?_, ?_, ?_⟩
    · intro hge hcross
      rw [hL1]
      exact (agingL2_mem now s.L2 _ ht).1 hge hcross
    · intro hge hstay
      rw [hL2]
      exact agingL3_l2_mono now s.L3 _ ((agingL2_mem now s.L2 _ ht).2.1 hge hstay)
    · intro hlt
      rw [hL2]
      exact agingL3_l2_mono now s.L3 _ ((agingL2_mem now s.L2 _ ht).2.2 hlt)
  · intro t ht
    refine ⟨?_, ?_, ?_⟩
    · intro hge hcross
      rw [hL2]
      exact (agingL3_mem now s.L3 _ ht).1 hge hcross
    · intro hge hstay
      rw [hL3]
      exact (agingL3_mem now s.L3 _ ht).2.1 hge hstay
    · intro hlt
      rw [hL3]
      exact (agingL3_mem now s.L3 _ ht).2.2 hlt

/-- Witness for C4 (amended) at a concrete state: an L3 thread of
priority 45 having waited exactly 1500 ticks is promoted into L2 with
priority 55. -/
theorem aging_amended_witness :
    ⟨55, 5, 0, 0, 1500, 0, .READY⟩ ∈
      (aging 1500 ⟨[], [], [⟨45, 5, 0, 0, 0, 0, .READY⟩]⟩).L2 := by
  have h := ((aging_amended 1500
    ⟨[], [], [⟨45, 5, 0, 0, 0, 0, .READY⟩]⟩).2.2
    ⟨45, 5, 0, 0, 0, 0, .READY⟩ (by decide)).1 (by decide) (by decide)
  simpa using h

/-! ### Bitmap bookkeeping lemmas. -/

theorem numSet_add_numClear (fm : List Bool) :
    numSet fm + numClear fm = fm.length := by
  induction fm with
  | nil => rfl
  | cons b bs ih =>
    cases b <;> simp [numSet, numClear, List.filter] at * <;> omega

theorem numSet_set_true : ∀ (fm : List Bool) (s : Nat),
    fm.get? s = some false → numSet (fm.set s true) = numSet fm + 1 := by
  intro fm
  induction fm with
  | nil => intro s h; cases h
  | cons b bs ih =>
    intro s h
    cases s with
    | zero =>
      simp only [List.get?] at h
      cases h
      simp [numSet, List.filter, List.set]
    | succ s =>
      simp only [List.get?] at h
      have := ih s h
      cases b <;> simp [numSet, List.filter, List.set] at * <;> omega

theorem numSet_set_false : ∀ (fm : List Bool) (s : Nat),
    fm.get? s = some true → numSet (fm.set s false) + 1 = numSet fm := by
  intro fm
  induction fm with
  | nil => intro s h; cases h
  | cons b bs ih =>
    intro s h
    cases s with
    | zero =>
      simp only [List.get?] at h
      cases h
      simp [numSet, List.filter, List.set]
    | succ s =>
      simp only [List.get?] at h
      have := ih s h
      cases b <;> simp [numSet, List.filter, List.set] at * <;> omega

theorem numClear_set_true (fm : List Bool) (s : Nat)
    (h : fm.get? s = some false) :
    numClear (fm.set s true) + 1 = numClear fm := by
  have h1 := numSet_add_numClear fm
  have h2 := numSet_add_numClear (fm.set s true)
  have h3 := numSet_set_true fm s h
  have h4 : (fm.set s true).length = fm.length := by simp
  omega

/-- Modelled-from-spec FindAndSet claims the first clear bit: existence
and characterization when a clear bit exists. -/
theorem findAndSet_spec : ∀ (fm : List Bool), 1 ≤ numClear fm →
    ∃ s, findAndSet fm = some (s, fm.set s true) ∧ s < fm.length ∧
      fm.get? s = some false := by
  intro fm
  induction fm with
  | nil => intro h; simp [numClear] at h
  | cons b bs ih =>
    intro h
    cases b with
    | false =>
      exact ⟨0, by simp [findAndSet], by simp, rfl⟩
    | true =>
      have hb : 1 ≤ numClear bs := by
        simpa [numClear, List.filter] using h
      obtain ⟨s, hfs, hlt, hget⟩ := ih hb
      refine ⟨s + 1, ?_, by simpa using hlt, by simpa using hget⟩
      simp [findAndSet, hfs, List.set]

/-- The leaf-sector claiming loop of Allocate: with k clear bits
available it claims exactly k distinct, previously clear sectors, all
marked afterwards, leaving every already-set bit set. -/
theorem claimSectors_spec : ∀ (k : Nat) (fm : List Bool),
    k ≤ numClear fm →
    ∃ ss fm', claimSectors k fm = some (ss, fm') ∧
      ss.length = k ∧
      fm'.length = fm.length ∧
      numSet fm' = numSet fm + k ∧
      numClear fm' + k = numClear fm ∧
      ss.Nodup ∧
      (∀ s ∈ ss, 0 ≤ s ∧ s.toNat < fm.length ∧
        fm.get? s.toNat = some false ∧ fm'.get? s.toNat = some true) ∧
      (∀ i, fm.get? i = some true → fm'.get? i = some true) := by
  intro k
  induction k with
  | zero =>
    intro fm _
    exact ⟨[], fm, rfl, rfl, rfl, by omega, by omega, List.nodup_nil,
      by simp, fun i h => h⟩
  | succ k ih =>
    intro fm h
    obtain ⟨s, hfs, hlt, hget⟩ := findAndSet_spec fm (by omega)
    have hclear1 := numClear_set_true fm s hget
    obtain ⟨ss, fm', hcl, hlen, hflen, hset, hclear, hnodup, hmem, hmono⟩ :=
      ih (fm.set s true) (by omega)
    have hs_true : (fm.set s true).get? s = some true :=
      List.get?_set_eq_of_lt true hlt
    refine ⟨(s : Int) :: ss, fm', ?_, ?_, ?_, ?_, ?_, ?_, ?_, ?_⟩
    · simp [claimSectors, hfs, hcl]
    · simp [hlen]
    · simpa using hflen
    · rw [hset, numSet_set_true fm s hget]; omega
    · omega
    · refine List.nodup_cons.mpr ⟨?_, hnodup⟩
      intro hmem'
      have := (hmem _ hmem').2.2.1
      simp only [Int.toNat_natCast] at this
      rw [hs_true] at this
      cases this
    · intro x hx
      rcases List.mem_cons.mp hx with rfl | hx'
      · refine ⟨by positivity, by simpa using hlt, by simpa using hget, ?_⟩
        simpa using hmono s hs_true
      · obtain ⟨hx0, hxlt, hxf, hxt⟩ := hmem x hx'
        refine ⟨hx0, by simpa using hxlt, ?_, hxt⟩
        have hne : s ≠ x.toNat := by
          intro he
          rw [← he, hs_true] at hxf
          cases hxf
        rw [← List.get?_set_ne true fm hne]
        exact hxf
    · intro i hi
      apply hmono
      by_cases he : s = i
      · subst he; exact hs_true
      · rw [List.get?_set_ne true fm he]; exact hi

/-- The total number of sectors the claim says a file of a given size
needs from Allocate: all leaf data sectors plus one sector per indirect
child header at every level (the root header's own sector is claimed by
the caller).  The Nat argument is a fuel bound on the loop iterations;
call sites pass remain.toNat, which suffices since the per-level
capacity is at least 1. -/
def specTotalAux (step : Int) (child : Int → Int) : Nat → Int → Int
  | 0, _ => 0
  | fuel + 1, remain =>
    if 0 < remain then
      1 + child (if remain ≥ step then step else remain) +
        specTotalAux step child fuel (remain - step)
    else 0

/-- Sectors needed at leaf level: ceil(n / SectorSize). -/
def specTotal0 (n : Int) : Int := divRoundUpI n SectorSize

/-- Sectors needed for a size of at most bytes_in_level2. -/
def specTotal1 (n : Int) : Int :=
  if n > bytes_in_level1 then specTotalAux bytes_in_level1 specTotal0 n.toNat n
  else specTotal0 n

/-- Sectors needed for a size of at most bytes_in_level3. -/
def specTotal2 (n : Int) : Int :=
  if n > bytes_in_level2 then specTotalAux bytes_in_level2 specTotal1 n.toNat n
  else specTotal1 n

/-- Sectors needed for any size: leaf data sectors plus indirect header
sectors of the size-selected indirection level. -/
def specTotalSectors (n : Int) : Int :=
  if n > bytes_in_level3 then specTotalAux bytes_in_level3 specTotal2 n.toNat n
  else specTotal2 n

/-- C6, counterexample: a file of 3841 bytes needs 31 leaf sectors plus
2 indirect child-header sectors = 33; with only 31 clear bits the claim
says Allocate returns FALSE without setting any bit, but the pre-check
(freeMap->NumClear() < numSectors, with numSectors counting only the 31
leaves) passes, allocation proceeds, and the run ends in the
ASSERT(dataSectors[idx] >= 0) abort (none) after bits have been set —
not in a FALSE return with the map untouched. -/
theorem allocate_precheck_counterexample :
    ((numClear (List.replicate 31 false ++ [true, true]) : Int) <
      specTotalSectors 3841) ∧
    allocate 3841 (List.replicate 31 false ++ [true, true]) = none := by
  constructor
  · decide
  · rfl

/-- C6, amended: the pre-check compares NumClear() with the leaf-sector
count ceil(fileSize / SectorSize) only — Allocate returns FALSE exactly
when the clear bits are fewer than that leaf count, and then no bit has
been set; when the file fits in one leaf level and the leaf count is
available, Allocate succeeds and claims exactly that many sectors. -/
theorem allocate_precheck_amended (n : Int) (fm : List Bool) :
    ((allocate n fm).map (fun r => r.1) = some false ↔
      (numClear fm : Int) < divRoundUpI n SectorSize) ∧
    ((numClear fm : Int) < divRoundUpI n SectorSize →
      allocate n fm = some (false, .leaf n [], fm)) ∧
    (0 ≤ n → n ≤ bytes_in_level1 →
      divRoundUpI n SectorSize ≤ (numClear fm : Int) →
      ∃ ss fm', allocate n fm = some (true, .leaf n ss, fm') ∧
        ss.length = (divRoundUpI n SectorSize).toNat ∧
        numClear fm' + (divRoundUpI n SectorSize).toNat = numClear fm) := by
  refine ⟨?_, ?_, ?_⟩
  · constructor
    · intro hmap
      by_contra hpre
      simp only [allocate] at hmap
      rw [if_neg hpre] at hmap
      split at hmap
      · cases hopt : allocLoop bytes_in_level3 allocate2 n.toNat n fm <;>
          simp [hopt] at hmap
      · split at hmap
        · cases hopt : allocLoop bytes_in_level2 allocate1 n.toNat n fm <;>
            simp [hopt] at hmap
        · split at hmap
          · cases hopt : allocLoop bytes_in_level1 allocate0 n.toNat n fm <;>
              simp [hopt] at hmap
          · cases hopt : claimSectors (divRoundUpI n SectorSize).toNat fm <;>
              simp [hopt] at hmap
    · intro hpre
      simp only [allocate]
      rw [if_pos hpre]
      rfl
  · intro hpre
    simp only [allocate]
    rw [if_pos hpre]
  · intro hn0 hn1 hpre
    have e1 : bytes_in_level1 = 3840 := by rfl
    have e2 : bytes_in_level2 = 115200 := by rfl
    have e3 : bytes_in_level3 = 3456000 := by rfl
    have hk : (divRoundUpI n SectorSize).toNat ≤ numClear fm := by omega
    obtain ⟨ss, fm', hcl, hlen, _, _, hclear, _, _, _⟩ :=
      claimSectors_spec (divRoundUpI n SectorSize).toNat fm hk
    refine ⟨ss, fm', ?_, hlen, hclear⟩
    simp only [allocate]
    rw [if_neg (by omega), if_neg (by omega), if_neg (by omega),
      if_neg (by omega)]
    simp [hcl]

/-- Witness for C6 (amended): with one clear bit, a 200-byte request
(needing 2 leaf sectors) is rejected by the pre-check with the map
untouched, and a 100-byte request succeeds claiming one sector. -/
theorem allocate_precheck_amended_witness :
    allocate 200 [false, true] = some (false, .leaf 200 [], [false, true]) ∧
    ∃ ss fm', allocate 100 [false, true] = some (true, .leaf 100 ss, fm') ∧
      ss.length = 1 ∧ numClear fm' + 1 = numClear [false, true] := by
  constructor
  · exact (allocate_precheck_amended 200 [false, true]).2.1 (by decide)
  · have h := (allocate_precheck_amended 100 [false, true]).2.2
      (by decide) (by decide) (by decide)
    obtain ⟨ss, fm', h1, h2, h3⟩ := h
    exact ⟨ss, fm', h1, by simpa using h2, by simpa using h3⟩

/-- C7, failing input: the well-formed two-level header that Allocate
builds for a 3841-byte file.  At offset 0 (within numBytes) the claim —
and the function's own documentation — says ByteToSector returns the
child recursion's sector; the indirect branch of the code computes
next_level->ByteToSector(...) but never returns it, so control falls off
the end of the non-void function with no defined value (none), whereas
the specified recursion (byteToSectorRef) returns sector 1, the first
leaf data sector. -/
theorem byteToSector_indirect_undefined :
    ((allocate 3841 (List.replicate 40 false)).map
      (fun r => (wfFH r.2.1, byteToSector r.2.1 0, byteToSectorRef r.2.1 0)))
      = some (true, none, some 1) := by rfl

/-- C9, counterexample: on the well-formed two-level header of a
3841-byte file, CountHeader returns 2 (the two leaf-level child
headers), while the number of header sectors reachable from the root,
the root included, is 3 — the claim's value. -/
theorem countHeader_counterexample :
    ((allocate 3841 (List.replicate 40 false)).map
      (fun r => (wfFH r.2.1, countHeader r.2.1, totalHeaders r.2.1)))
      = some (true, 2, 3) := by rfl

/-- For a well-formed child list, the CountHeader loop visits exactly
the stored children. -/
theorem countLoop_decomp (step : Int) :
    ∀ (cs : List (Int × FH)) (remain : Int),
    (∀ c ∈ cs, wfFH c.2 = true →
      totalHeaders c.2 = countHeader c.2 + internalHeaders c.2) →
    wfLoop step remain cs = true →
    totalHeadersList cs = countLoop step remain cs + internalHeadersList cs := by
  intro cs
  induction cs with
  | nil =>
    intro remain _ _
    rfl
  | cons c cs ih =>
    intro remain hIH hwf
    simp only [wfLoop, Bool.and_eq_true, decide_eq_true_eq] at hwf
    obtain ⟨⟨⟨hpos, _⟩, hwfc⟩, hrest⟩ := hwf
    have hc := hIH c (List.mem_cons_self _ _) hwfc
    have htl := ih (remain - step)
      (fun x hx hw => hIH x (List.mem_cons_of_mem _ hx) hw) hrest
    simp only [totalHeadersList, internalHeadersList, countLoop]
    rw [if_pos hpos]
    omega

/-- C9, amended: CountHeader counts only the leaf-level headers — for
every well-formed header, the total number of header sectors reachable
from the root (the root included) equals CountHeader plus the number of
indirect (internal) header sectors, so CountHeader undercounts a
multi-level file by exactly its internal headers. -/
theorem totalHeaders_decomp (h : FH) (hwf : wfFH h = true) :
    totalHeaders h = countHeader h + internalHeaders h := by
  suffices hk : ∀ (k : Nat) (g : FH), sizeOf g ≤ k → wfFH g = true →
      totalHeaders g = countHeader g + internalHeaders g by
    exact hk (sizeOf h) h le_rfl hwf
  intro k
  induction k with
  | zero =>
    intro g hs _
    cases g <;> simp_arith at hs
  | succ k ih =>
    intro g hs hwfg
    cases g with
    | leaf nb ss => rfl
    | node nb cs =>
      have hchild : ∀ c ∈ cs, wfFH c.2 = true →
          totalHeaders c.2 = countHeader c.2 + internalHeaders c.2 := by
        intro c hm hw
        apply ih c.2 _ hw
        have h1 : sizeOf c < sizeOf cs := List.sizeOf_lt_of_mem hm
        have h2 : sizeOf (FH.node nb cs) ≤ k + 1 := hs
        simp only [FH.node.sizeOf_spec] at h2
        cases c with
        | mk a b =>
          simp only [Prod.mk.sizeOf_spec] at h1
          show sizeOf b ≤ k
          omega
      simp only [wfFH] at hwfg
      simp only [totalHeaders, countHeader, internalHeaders]
      split at hwfg
      · rw [if_pos (by assumption)]
        have := countLoop_decomp bytes_in_level3 cs nb hchild hwfg
        omega
      · split at hwfg
        · rw [if_neg (by assumption), if_pos (by assumption)]
          have := countLoop_decomp bytes_in_level2 cs nb hchild hwfg
          omega
        · split at hwfg
          · rw [if_neg (by assumption), if_neg (by assumption),
              if_pos (by assumption)]
            have := countLoop_decomp bytes_in_level1 cs nb hchild hwfg
            omega
          · cases hwfg

/-- Witness for C9 (amended) on a concrete well-formed two-level
header. -/
theorem totalHeaders_decomp_witness :
    totalHeaders (FH.node 3841
        [(0, FH.leaf 3840 ((List.range 30).map Int.ofNat)), (31, FH.leaf 1 [30])]) =
      countHeader (FH.node 3841
        [(0, FH.leaf 3840 ((List.range 30).map Int.ofNat)), (31, FH.leaf 1 [30])]) +
      internalHeaders (FH.node 3841
        [(0, FH.leaf 3840 ((List.range 30).map Int.ofNat)), (31, FH.leaf 1 [30])]) := by
  exact totalHeaders_decomp _ (by rfl)

/-- C10: FileSystem::RemoveDir returns TRUE for every input path — the
function has no failure branch.  Whatever sector value the resolution
loop leaves behind (−1 when the final component does not name an
existing directory, the uninitialized local when there is no token), a
header is fetched from that sector and deallocated, the sector is
cleared in the free map, and the directory and free map are written
back. -/
theorem removeDir_always_true (dirs : Int → List DirEntry) (disk : Int → FH)
    (fm : List Bool) (tokens : List String) (sector0 : Int)
    (preTok0 : String) :
    (removeDir dirs disk fm tokens sector0 preTok0).1 = true ∧
    ∃ s, (removeDir dirs disk fm tokens sector0 preTok0).2.1 =
      clearBit s (deallocate (disk s) fm) := by
  exact ⟨rfl,
    ⟨(rdLoop dirs tokens (dirs DirectorySector) none sector0 preTok0
      DirectorySector).1, rfl⟩⟩

/-! ### Lemmas for the Create/Remove round trip (C8). -/

theorem divRoundUpI_toNat_succ (nb : Int) (k : Nat)
    (h : (divRoundUpI nb SectorSize).toNat = k + 1) :
    0 < nb ∧ (divRoundUpI (nb - SectorSize) SectorSize).toNat = k := by
  have hss : SectorSize = 128 := rfl
  simp only [divRoundUpI, hss] at h ⊢
  by_cases hpos : 0 ≤ nb + 128 - 1
  · rw [Int.tdiv_eq_ediv hpos (by decide)] at h
    have hnb : 0 < nb := by omega
    rw [Int.tdiv_eq_ediv (by omega) (by decide)]
    exact ⟨hnb, by omega⟩
  · exfalso
    have he : nb + 128 - 1 = -(-(nb + 128 - 1)) := by ring
    rw [he, Int.neg_tdiv, Int.tdiv_eq_ediv (by omega) (by decide)] at h
    omega

/-- The leaf clearing loop of Deallocate erases exactly the listed
sectors: the set-bit count drops by their number and every other bit is
untouched. -/
theorem clearLoop_spec : ∀ (ss : List Int) (nb : Int) (fm : List Bool),
    ss.length = (divRoundUpI nb SectorSize).toNat → ss.Nodup →
    (∀ s ∈ ss, 0 ≤ s ∧ fm.get? s.toNat = some true) →
    numSet (clearLoop nb ss fm) + ss.length = numSet fm ∧
    (∀ i, (∀ s ∈ ss, s.toNat ≠ i) →
      (clearLoop nb ss fm).get? i = fm.get? i) := by
  intro ss
  induction ss with
  | nil =>
    intro nb fm _ _ _
    exact ⟨by simp [clearLoop], fun i _ => rfl⟩
  | cons s ss ih =>
    intro nb fm hlen hnodup hmem
    obtain ⟨hpos, hlen'⟩ := divRoundUpI_toNat_succ nb ss.length
      (by simpa using hlen.symm)
    have h0 : 0 ≤ s := (hmem s (List.mem_cons_self _ _)).1
    have hget : fm.get? s.toNat = some true :=
      (hmem s (List.mem_cons_self _ _)).2
    have hcl : clearLoop nb (s :: ss) fm =
        clearLoop (nb - SectorSize) ss (fm.set s.toNat false) := by
      simp only [clearLoop]
      rw [if_pos hpos]
      simp [clearBit, not_lt.mpr h0]
    have hmem' : ∀ x ∈ ss, 0 ≤ x ∧
        (fm.set s.toNat false).get? x.toNat = some true := by
      intro x hx
      obtain ⟨hx0, hxt⟩ := hmem x (List.mem_cons_of_mem _ hx)
      refine ⟨hx0, ?_⟩
      have hsx : s ≠ x := by
        intro he
        exact (List.nodup_cons.mp hnodup).1 (he ▸ hx)
      have hne : s.toNat ≠ x.toNat := by omega
      rw [List.get?_set_ne false fm hne]
      exact hxt
    have hIH := ih (nb - SectorSize) (fm.set s.toNat false) hlen'.symm
      (List.nodup_cons.mp hnodup).2 hmem'
    constructor
    · rw [hcl]
      have hns := numSet_set_false fm s.toNat hget
      simp only [List.length_cons]
      omega
    · intro i hi
      rw [hcl, hIH.2 i (fun x hx => hi x (List.mem_cons_of_mem _ hx))]
      have hnei : s.toNat ≠ i := hi s (List.mem_cons_self _ _)
      exact List.get?_set_ne false fm hnei

/-- Writing a matching entry into slot j of a table with no matching
entry makes j the first match. -/
theorem findIdx?_set_of_none {α : Type} (p : α → Bool) :
    ∀ (l : List α) (j : Nat) (e : α), (∀ x ∈ l, p x = false) →
      p e = true → j < l.length → List.findIdx? p (l.set j e) = some j := by
  intro l
  induction l with
  | nil =>
    intro j e _ _ h
    simp at h
  | cons d ds ih =>
    intro j e hall he hj
    cases j with
    | zero =>
      simp [List.set, List.findIdx?_cons, he]
    | succ j =>
      have hd : p d = false := hall d (List.mem_cons_self _ _)
      simp only [List.set]
      rw [List.findIdx?_cons, if_neg (by simp [hd]), List.findIdx?_succ,
        ih j e (fun x hx => hall x (List.mem_cons_of_mem _ hx)) he
          (by simpa using hj)]
      rfl

/-- C8, amended: for a single-level file (size at most bytes_in_level1),
Create followed by Remove restores the free-map set-bit count — the
header sector and every leaf data sector claimed by the Create are
cleared again by the Remove.  (For a multi-level file the Remove leaks
the indirect child-header sectors; see the counterexample.) -/
theorem create_remove_roundtrip (nm : String) (n : Int) (st : FSState)
    (hn0 : 0 ≤ n) (hn1 : n ≤ bytes_in_level1)
    (hnotfound : dirFindIdx st.dir nm = none)
    (hslot : ∃ e ∈ st.dir, e.inUse = false)
    (hspace : (divRoundUpI n SectorSize).toNat + 1 ≤ numClear st.freeMap) :
    ∃ st1 st2, create nm n st = some (true, st1) ∧
      remove nm st1 = (true, st2) ∧
      numSet st2.freeMap = numSet st.freeMap := by
  have e1 : bytes_in_level1 = 3840 := rfl
  have e2 : bytes_in_level2 = 115200 := rfl
  have e3 : bytes_in_level3 = 3456000 := rfl
  -- the header sector claimed by Create
  obtain ⟨hs, hfs, hslt, hsget⟩ := findAndSet_spec st.freeMap (by omega)
  have hclear1 := numClear_set_true st.freeMap hs hsget
  have hset1 := numSet_set_true st.freeMap hs hsget
  -- the directory gains the entry at the first free slot j
  obtain ⟨e0, he0mem, he0⟩ := hslot
  have hslotSome : (st.dir.findIdx? (fun e => !e.inUse)).isSome := by
    cases hfi : st.dir.findIdx? (fun e => !e.inUse) with
    | some _ => rfl
    | none =>
      exfalso
      have := List.findIdx?_eq_none_iff.mp hfi e0 he0mem
      simp [he0] at this
  obtain ⟨j, hj⟩ := Option.isSome_iff_exists.mp hslotSome
  have hjlt : j < st.dir.length :=
    (List.findIdx?_eq_some_iff_findIdx_eq.mp hj).1
  have hadd : dirAdd st.dir nm (hs : Int) =
      (true, st.dir.set j ⟨true, false, nm, (hs : Int)⟩) := by
    simp only [dirAdd, hnotfound, Option.isSome_none, Bool.false_eq_true,
      if_false, hj]
  -- the data sectors claimed by Allocate
  have hk' : (divRoundUpI n SectorSize).toNat ≤
      numClear (st.freeMap.set hs true) := by omega
  obtain ⟨ss, fm2, hcl, hlen, hflen, hset2, hclear2, hnodup, hmem, hmono⟩ :=
    claimSectors_spec (divRoundUpI n SectorSize).toNat
      (st.freeMap.set hs true) hk'
  have halloc : allocate n (st.freeMap.set hs true) =
      some (true, .leaf n ss, fm2) := by
    simp only [allocate]
    rw [if_neg (by omega), if_neg (by omega), if_neg (by omega),
      if_neg (by omega)]
    simp [hcl]
  have hdirfindneg : ¬ dirFind st.dir nm ≥ 0 := by
    simp [dirFind, hnotfound]
  have hcreate : create nm n st = some (true,
      ⟨fm2, st.dir.set j ⟨true, false, nm, (hs : Int)⟩,
        fun s => if s = (hs : Int) then .leaf n ss else st.disk s⟩) := by
    simp only [create]
    rw [if_neg hdirfindneg, hfs]
    simp [hadd, halloc]
  -- Remove finds the entry again
  have hfind1 : dirFindIdx (st.dir.set j ⟨true, false, nm, (hs : Int)⟩) nm
      = some j := by
    apply findIdx?_set_of_none
    · intro x hx
      exact List.findIdx?_eq_none_iff.mp hnotfound x hx
    · simp
    · exact hjlt
  have hgetD : (st.dir.set j ⟨true, false, nm, (hs : Int)⟩).getD j default
      = ⟨true, false, nm, (hs : Int)⟩ := by
    have h := List.get?_set_eq_of_lt (⟨true, false, nm, (hs : Int)⟩ : DirEntry)
      hjlt (l := st.dir)
    rw [List.get?_eq_getElem?] at h
    simp [List.getD, h]
  have hdirfind1 : dirFind (st.dir.set j ⟨true, false, nm, (hs : Int)⟩) nm
      = (hs : Int) := by
    simp only [dirFind, hfind1]
    rw [hgetD]
  -- the fetched header and the deallocation
  have hdisk : (fun s => if s = (hs : Int) then FH.leaf n ss else st.disk s)
      (hs : Int) = FH.leaf n ss := by simp
  have hdealloc : deallocate (FH.leaf n ss) fm2 = clearLoop n ss fm2 := by
    simp only [deallocate]
    rw [if_neg (by omega)]
  have hmem2 : ∀ s ∈ ss, 0 ≤ s ∧ fm2.get? s.toNat = some true := by
    intro s hsm
    exact ⟨(hmem s hsm).1, (hmem s hsm).2.2.2⟩
  have hclr := clearLoop_spec ss n fm2 hlen hnodup hmem2
  -- the header-sector bit survives the data clearing
  have hhs1 : (st.freeMap.set hs true).get? hs = some true :=
    List.get?_set_eq_of_lt true hslt
  have hhs2 : fm2.get? hs = some true := hmono hs hhs1
  have hneq : ∀ x ∈ ss, x.toNat ≠ hs := by
    intro x hx he
    have := (hmem x hx).2.2.1
    rw [he, hhs1] at this
    cases this
  have hhs3 : (clearLoop n ss fm2).get? hs = some true := by
    rw [hclr.2 hs hneq]
    exact hhs2
  have hclear : clearBit (hs : Int) (clearLoop n ss fm2) =
      (clearLoop n ss fm2).set hs false := by
    simp [clearBit]
  have hns4 := numSet_set_false (clearLoop n ss fm2) hs hhs3
  refine ⟨_, ⟨(clearLoop n ss fm2).set hs false,
      (dirRemove (st.dir.set j ⟨true, false, nm, (hs : Int)⟩) nm).2,
      fun s => if s = (hs : Int) then FH.leaf n ss else st.disk s⟩,
    hcreate, ?_, ?_⟩
  · simp only [remove, hdirfind1]
    rw [if_neg (by omega)]
    simp [hdealloc, hclear]
  · simp only
    omega

/-- Witness for C8 (amended): creating then removing a 100-byte file in
a one-slot directory with four clear sectors restores the set-bit
count. -/
theorem create_remove_roundtrip_witness :
    ∃ st1 st2,
      create "a" 100 ⟨[false, false, false, false],
        [⟨false, false, "", -1⟩], fun _ => FH.leaf 0 []⟩ = some (true, st1) ∧
      remove "a" st1 = (true, st2) ∧
      numSet st2.freeMap =
        numSet (FSState.freeMap ⟨[false, false, false, false],
          [⟨false, false, "", -1⟩], fun _ => FH.leaf 0 []⟩) := by
  exact create_remove_roundtrip "a" 100
    ⟨[false, false, false, false], [⟨false, false, "", -1⟩],
      fun _ => FH.leaf 0 []⟩
    (by decide) (by decide) (by decide) ⟨⟨false, false, "", -1⟩, by simp, rfl⟩
    (by decide)

/-- C8, counterexample: creating a 3841-byte file (two-level header)
claims 34 sectors — 1 file header + 2 indirect child headers + 31
leaves; the following Remove clears the leaves and the file header but
not the two child-header sectors, so the free map ends with 2 set bits
instead of the 0 it started with. -/
theorem create_remove_counterexample :
    ((create "a" 3841 ⟨List.replicate 40 false, [⟨false, false, "", -1⟩],
        fun _ => FH.leaf 0 []⟩).map (fun r => r.1) = some true) ∧
    numSet ((remove "a"
      ((create "a" 3841 ⟨List.replicate 40 false, [⟨false, false, "", -1⟩],
        fun _ => FH.leaf 0 []⟩).getD
          (false, ⟨[], [], fun _ => FH.leaf 0 []⟩)).2).2.freeMap) = 2 ∧
    numSet (List.replicate 40 false) = 0 := by
  refine ⟨rfl, rfl, rfl⟩

end NachOS
